import Mathlib

/-!
Verification of the vote-scanning pipeline of `src/scripts/scanResults.js`.

The development is a shallow embedding of the script's core
decode-aggregate-summarize pipeline:

* transaction classification (`isSpendie`, `isVote`, `isWithdraw`),
* vote-magnitude decoding (`getVotes`, with the ABI decoder of the
  external `ethers` library abstracted as the `decode` field of `Env`),
* ballot-box address resolution (`getBoxAddress`, with the external
  RIPEMD-160 digest abstracted as the `ripemd160hex` field of `Env`),
* proposal lookup (`getProposalByBox`, `resolveBox`),
* the main aggregation loop over transactions (`processTx`, `runTxs`;
  JS exceptions are modeled by `Except`, `console.warn` diagnostics by
  the `warnings` field of `ScanState`),
* the summarizer (`countByNumberOfVotes`, `groupedDistr`,
  `distributionByVoteCSV`).

JS objects keyed by strings are modeled as association lists in
insertion order (`alistGet`, `alistSet`), the JS `Set` as a
duplicate-free list in insertion order (`addVoter`), and the two
`Array.prototype.sort` calls as insertion sort (`sortLe`).  Dynamic
accesses `tx.inputs[0]` and `tx.inputs[1]` are modeled with a default
element; every theorem below only exercises transactions where the
accessed inputs exist.
-/

/-- A transaction input as used by the script: call payload bytes
(`msgData`), the signer address, and the unlocking script bytes. -/
structure TxInput where
  msgData : List Nat
  signer : String
  script : List Nat
  deriving DecidableEq

/-- A transaction output: an address and a color code. -/
structure TxOutput where
  address : String
  color : Nat
  deriving DecidableEq

/-- A decoded plasma transaction (the result of `Tx.fromRaw`). -/
structure Tx where
  type : Nat
  inputs : List TxInput
  outputs : List TxOutput
  deriving DecidableEq

/-- A proposal record, as kept after `slimProposal`. -/
structure Proposal where
  title : String
  proposalId : String
  boothAddress : String
  yesBoxAddress : String
  noBoxAddress : String
  deriving DecidableEq

/-- The tuple produced by `ethers.utils.defaultAbiCoder.decode` against
the `castBallot` parameter layout.  The script reads only `params[3]`
(field `param3`), a `uint256` scaled by `10 ^ 18`. -/
structure CastBallotParams where
  param0 : Nat
  param1 : Nat
  param2 : Nat
  param3 : Nat
  deriving DecidableEq

/-- The external collaborators of the script: the proposal registry, the
ABI decoder for the `castBallot` parameter layout (`none` models a JS
decode exception), the hex-encoded RIPEMD-160 digest, and the two
4-byte function selectors computed from the contract ABIs. -/
structure Env where
  proposals : List Proposal
  decode : List Nat → Option CastBallotParams
  ripemd160hex : List Nat → String
  voteFuncSig : List Nat
  withdrawFuncSig : List Nat

/-- `const factor18 = bigNumberify(String(10 ** 18))`. -/
def factor18 : Nat := 10 ^ 18

/-- Default used to model out-of-range dynamic input accesses. -/
def defaultTxInput : TxInput := ⟨[], "", []⟩

/-- `getFuncSig`: the first 4 bytes of the first input's `msgData`. -/
def getFuncSig (t : Tx) : List Nat :=
  ((t.inputs.getD 0 defaultTxInput).msgData).take 4

/-- `isSpendie`: the transaction type tag equals 13. -/
def isSpendie (t : Tx) : Bool := t.type == 13

/-- `isVote`: a spendie whose selector is the `castBallot` sighash. -/
def isVote (env : Env) (t : Tx) : Bool :=
  isSpendie t && (getFuncSig t == env.voteFuncSig)

/-- `isWithdraw`: a spendie whose selector is the `withdraw` sighash. -/
def isWithdraw (env : Env) (t : Tx) : Bool :=
  isSpendie t && (getFuncSig t == env.withdrawFuncSig)

/-- The call payload with the 4-byte selector cut off
(`tx.inputs[0].msgData.slice(4)` in `getVotes`). -/
def payload (t : Tx) : List Nat :=
  ((t.inputs.getD 0 defaultTxInput).msgData).drop 4

/-- The voter address: `tx.inputs[1].signer` (the balance-card signer). -/
def voterOf (t : Tx) : String :=
  (t.inputs.getD 1 defaultTxInput).signer

/-- `getVotes`: decode the payload against the `castBallot` layout, take
the 4th parameter, divide out `factor18`, and negate for withdraws.
`none` models the JS decode exception propagating out of `getVotes`. -/
def getVotes (env : Env) (t : Tx) : Option Int :=
  match env.decode (payload t) with
  | none => none
  | some params =>
    let votes : Int := ((params.param3 / factor18 : Nat) : Int)
    some (if isWithdraw env t then -votes else votes)

/-- `getProposalByBox`: first proposal whose yes- or no-box address
matches. -/
def getProposalByBox (proposals : List Proposal) (boxAddress : String) : Option Proposal :=
  proposals.find? (fun prop => prop.yesBoxAddress == boxAddress || prop.noBoxAddress == boxAddress)

/-- The resolution part of `getProposalId`: the destructuring
`const { proposalId } = getProposalByBox(...) || {}` followed by the JS
truthiness test `if (proposalId)` (an empty id is falsy). -/
def resolveBox (env : Env) (boxAddress : String) : Option String :=
  match getProposalByBox env.proposals boxAddress with
  | some prop => if prop.proposalId == "" then none else some prop.proposalId
  | none => none

/-- `getBoxAddress`: for a withdraw, the hex RIPEMD-160 digest of the
first input's unlocking script; otherwise the address of the first
output whose address differs from the voter and whose color is 4
(`none` models the JS `TypeError` when no output matches). -/
def getBoxAddress (env : Env) (t : Tx) (voter : String) : Option String :=
  if isWithdraw env t then
    some (env.ripemd160hex (t.inputs.getD 0 defaultTxInput).script)
  else
    (t.outputs.find? (fun o => o.address != voter && o.color == 4)).map (fun o => o.address)

/-- Lookup in a JS object modeled as an insertion-ordered association
list. -/
def alistGet {κ α : Type} [DecidableEq κ] : List (κ × α) → κ → Option α
  | [], _ => none
  | p :: l, k => if p.1 = k then some p.2 else alistGet l k

/-- Assignment `obj[k] = v` on a JS object: replace the value of an
existing key in place, or append a fresh key. -/
def alistSet {κ α : Type} [DecidableEq κ] : List (κ × α) → κ → α → List (κ × α)
  | [], k, v => [(k, v)]
  | p :: l, k, v => if p.1 = k then (k, v) :: l else p :: alistSet l k v

/-- `Set.prototype.add`: append the element unless already present. -/
def addVoter (voters : List String) (v : String) : List String :=
  if v ∈ voters then voters else voters ++ [v]

/-- The mutable state of the main loop: `distr` (proposalId → voter →
net votes), the `voters` set, and the `console.warn` diagnostics (each
recorded as the unresolved box address it reports). -/
structure ScanState where
  distr : List (String × List (String × Int))
  voters : List String
  warnings : List String
  deriving DecidableEq

/-- The state at the start of the main loop. -/
def initialState : ScanState := ⟨[], [], []⟩

/-- Error message modeling the JS `TypeError` raised in `getBoxAddress`
when no output matches. -/
def noBoxOutputMsg : String := "no ballot box output"

/-- Error message modeling the JS exception raised by the ABI decoder
inside `getVotes`. -/
def decodeFailureMsg : String := "decode failure"

/-- The body of the main `txs.forEach` loop for one transaction.  A JS
exception (which would abort the whole loop) is an `Except.error`. -/
def processTx (env : Env) (s : ScanState) (t : Tx) : Except String ScanState :=
  if isVote env t || isWithdraw env t then
    let voter := voterOf t
    let s1 : ScanState := { s with voters := addVoter s.voters voter }
    match getBoxAddress env t voter with
    | none => Except.error noBoxOutputMsg
    | some boxAddress =>
      match resolveBox env boxAddress with
      | none => Except.ok { s1 with warnings := s1.warnings ++ [boxAddress] }
      | some proposalId =>
        match getVotes env t with
        | none => Except.error decodeFailureMsg
        | some votesRaw =>
          let proposalVotes := (alistGet s1.distr proposalId).getD []
          let prevVote := (alistGet proposalVotes voter).getD 0
          let votes := if prevVote < 0 ∧ isWithdraw env t = true then -votesRaw else votesRaw
          Except.ok { s1 with
            distr := alistSet s1.distr proposalId
              (alistSet proposalVotes voter (prevVote + votes)) }
  else
    Except.ok s

/-- The main `txs.forEach` loop; an exception thrown inside the loop
body aborts the whole traversal. -/
def runTxs (env : Env) : List Tx → ScanState → Except String ScanState
  | [], s => Except.ok s
  | t :: ts, s =>
    match processTx env s t with
    | Except.ok s1 => runTxs env ts s1
    | Except.error e => Except.error e

/-- One step of the reduce inside `countByNumberOfVotes`:
`r[k] = (r[k] || 0) + 1`. -/
def bumpCount (l : List (Int × Int)) (k : Int) : List (Int × Int) :=
  match l with
  | [] => [(k, 1)]
  | p :: rest => if p.1 = k then (p.1, p.2 + 1) :: rest else p :: bumpCount rest k

/-- `countByNumberOfVotes`: group the (voter, netVotes) entries of one
proposal by net-vote value, counting voters per value. -/
def countByNumberOfVotes (entries : List (String × Int)) : List (Int × Int) :=
  entries.foldl (fun r e => bumpCount r e.2) []

/-- `Object.values(countByVote).reduce((r, v) => r += v, 0)`. -/
def sumCounts (l : List (Int × Int)) : Int :=
  (l.map (fun p => p.2)).foldl (· + ·) 0

/-- Ordered insertion used to model `Array.prototype.sort`. -/
def insertLe {α : Type} (le : α → α → Bool) (a : α) : List α → List α
  | [] => [a]
  | b :: l => if le a b then a :: b :: l else b :: insertLe le a l

/-- Insertion sort modeling `Array.prototype.sort` with a consistent
comparator. -/
def sortLe {α : Type} (le : α → α → Bool) : List α → List α
  | [] => []
  | a :: l => insertLe le a (sortLe le l)

/-- The default (lexicographic) string comparator of `.sort()`. -/
def strLe (a b : String) : Bool := decide (a ≤ b)

/-- The numeric comparator `(a, b) => a[0] - b[0]` on bucket entries. -/
def pairLe (a b : Int × Int) : Bool := decide (a.1 ≤ b.1)

/-- `groupedDistr`: for each proposal id of `distr` in sorted order,
the vote-value histogram with the zero bucket topped up by
`voters.size - totalVotesForProposal`. -/
def groupedDistr (s : ScanState) : List (String × List (Int × Int)) :=
  (sortLe strLe (s.distr.map (fun p => p.1))).map (fun proposalId =>
    let countByVote := countByNumberOfVotes ((alistGet s.distr proposalId).getD [])
    let totalVotesForProposal := sumCounts countByVote
    (proposalId,
      alistSet countByVote 0
        (((alistGet countByVote 0).getD 0) + (s.voters.length : Int) - totalVotesForProposal)))

/-- One CSV line `` `${proposalId},${votes},${count}` ``. -/
def csvRow (proposalId : String) (e : Int × Int) : String :=
  proposalId ++ "," ++ toString e.1 ++ "," ++ toString e.2

/-- `distributionByVoteCSV`: the header line followed by, for each
proposal in `groupedDistr`, its bucket rows sorted by vote value. -/
def distributionByVoteCSV (s : ScanState) : List String :=
  "Proposal,Votes,Count" :: (groupedDistr s).flatMap (fun v => (sortLe pairLe v.2).map (csvRow v.1))

/-! ### A concrete instantiation of the external collaborators

Used to evaluate the pipeline on closed inputs. -/

/-- Two proposals with distinct box addresses. -/
def demoProposals : List Proposal :=
  [⟨"Proposal A", "prop1", "booth1", "yesBox1", "noBox1"⟩,
   ⟨"Proposal B", "prop2", "booth2", "yesBox2", "noBox2"⟩]

/-- A concrete ABI decoder: a payload of exactly four bytes decodes,
with the vote count scaled up by `factor18` into `param3`; anything
else raises a decode exception. -/
def demoDecode : List Nat → Option CastBallotParams
  | [a, b, c, d] => some ⟨a, b, c, d * factor18⟩
  | _ => none

/-- A concrete digest: script `[1]` hashes to the no-box of `prop1`,
script `[2]` to its yes-box, anything else to an unknown address. -/
def demoRipemd : List Nat → String
  | [1] => "noBox1"
  | [2] => "yesBox1"
  | _ => "unknownBox"

/-- The concrete environment assembled from the demo collaborators. -/
def demoEnv : Env :=
  { proposals := demoProposals
    decode := demoDecode
    ripemd160hex := demoRipemd
    voteFuncSig := [10, 11, 12, 13]
    withdrawFuncSig := [20, 21, 22, 23] }

/-- The address of the demo voter alice. -/
def aliceAddr : String := "alice"

/-- The id of the first demo proposal. -/
def prop1Id : String := "prop1"

/-- The no-box address of the first demo proposal. -/
def noBox1Addr : String := "noBox1"

/-- The yes-box address of the first demo proposal. -/
def yesBox1Addr : String := "yesBox1"

/-- The box address produced by the demo digest for unknown scripts. -/
def unknownBoxAddr : String := "unknownBox"

/-- A `castBallot` transaction casting `m` votes on the yes-box of
`prop1`; input 0 pays the fee, input 1 is the voter's balance card. -/
def voteTx (voter : String) (m : Nat) : Tx :=
  { type := 13
    inputs := [⟨[10, 11, 12, 13, 0, 0, 0, m], "feePayer", []⟩, ⟨[], voter, []⟩]
    outputs := [⟨voter, 4⟩, ⟨"yesBox1", 4⟩] }

/-- A `withdraw` transaction of magnitude `m` whose unlocking script
hashes to the no-box of `prop1`. -/
def withdrawTx (voter : String) (m : Nat) : Tx :=
  { type := 13
    inputs := [⟨[20, 21, 22, 23, 0, 0, 0, m], "feePayer", [1]⟩, ⟨[], voter, []⟩]
    outputs := [] }

/-- A `castBallot` transaction whose payload is empty after the
selector, so the ABI decode raises. -/
def badDecodeTx : Tx :=
  { type := 13
    inputs := [⟨[10, 11, 12, 13], "feePayer", []⟩, ⟨[], "bob", []⟩]
    outputs := [⟨"yesBox1", 4⟩] }

/-- A `withdraw` transaction whose unlocking script hashes to a box
address matching no proposal. -/
def unknownBoxTx : Tx :=
  { type := 13
    inputs := [⟨[20, 21, 22, 23, 0, 0, 0, 1], "feePayer", [9]⟩, ⟨[], "carol", []⟩]
    outputs := [] }

/-- The state reached by running the single vote `voteTx "alice" 5`. -/
def demoRunState : ScanState :=
  { distr := [("prop1", [("alice", 5)])], voters := ["alice"], warnings := [] }

/-! ### Association-list and voter-set lemmas -/

theorem alistGet_alistSet_self {κ α : Type} [DecidableEq κ] (l : List (κ × α)) (k : κ) (v : α) :
    alistGet (alistSet l k v) k = some v := by
  induction l with
  | nil => simp [alistGet, alistSet]
  | cons p l ih =>
    by_cases h : p.1 = k
    · simp [alistGet, alistSet, h]
    · simp [alistGet, alistSet, h, ih]

theorem mem_alistSet {κ α : Type} [DecidableEq κ] {l : List (κ × α)} {k : κ} {v : α}
    {q : κ × α} (hq : q ∈ alistSet l k v) : q = (k, v) ∨ q ∈ l := by
  induction l with
  | nil => simpa [alistSet] using hq
  | cons p l ih =>
    by_cases h : p.1 = k
    · rw [alistSet, if_pos h] at hq
      rcases List.mem_cons.1 hq with hq1 | hq1
      · exact Or.inl hq1
      · exact Or.inr (List.mem_cons_of_mem p hq1)
    · rw [alistSet, if_neg h] at hq
      rcases List.mem_cons.1 hq with hq1 | hq1
      · exact Or.inr (List.mem_cons.2 (Or.inl hq1))
      · rcases ih hq1 with hq2 | hq2
        · exact Or.inl hq2
        · exact Or.inr (List.mem_cons_of_mem p hq2)

theorem keys_alistSet_sub {κ α : Type} [DecidableEq κ] {l : List (κ × α)} {k : κ} {v : α}
    {x : κ} (hx : x ∈ (alistSet l k v).map (fun p => p.1)) :
    x = k ∨ x ∈ l.map (fun p => p.1) := by
  rcases List.mem_map.1 hx with ⟨q, hq, hqx⟩
  rcases mem_alistSet hq with hq1 | hq1
  · left; rw [← hqx, hq1]
  · right; exact List.mem_map.2 ⟨q, hq1, hqx⟩

theorem keys_alistSet_nodup {κ α : Type} [DecidableEq κ] {l : List (κ × α)} (k : κ) (v : α)
    (h : (l.map (fun p => p.1)).Nodup) : ((alistSet l k v).map (fun p => p.1)).Nodup := by
  induction l with
  | nil => simp [alistSet]
  | cons p l ih =>
    rw [List.map_cons, List.nodup_cons] at h
    by_cases hpk : p.1 = k
    · rw [alistSet, if_pos hpk, List.map_cons, List.nodup_cons]
      exact ⟨hpk ▸ h.1, h.2⟩
    · rw [alistSet, if_neg hpk, List.map_cons, List.nodup_cons]
      refine ⟨fun hmem => ?_, ih h.2⟩
      rcases keys_alistSet_sub hmem with h1 | h1
      · exact hpk h1
      · exact h.1 h1

theorem alistGet_mem {κ α : Type} [DecidableEq κ] {l : List (κ × α)} {k : κ} {v : α}
    (h : alistGet l k = some v) : (k, v) ∈ l := by
  induction l with
  | nil => simp [alistGet] at h
  | cons p l ih =>
    by_cases hpk : p.1 = k
    · rw [alistGet, if_pos hpk] at h
      have hv : p.2 = v := Option.some.inj h
      have hp : (k, v) = p := by rw [← hpk, ← hv]
      exact List.mem_cons.2 (Or.inl hp)
    · rw [alistGet, if_neg hpk] at h
      exact List.mem_cons_of_mem p (ih h)

theorem addVoter_nodup {l : List String} (v : String) (h : l.Nodup) : (addVoter l v).Nodup := by
  rw [addVoter]
  by_cases hv : v ∈ l
  · simpa [hv]
  · simp [hv, List.nodup_append, h]

theorem mem_addVoter_self (l : List String) (v : String) : v ∈ addVoter l v := by
  rw [addVoter]
  by_cases hv : v ∈ l
  · simp [hv]
  · simp [hv]

theorem mem_addVoter_of_mem {l : List String} {x : String} (v : String) (h : x ∈ l) :
    x ∈ addVoter l v := by
  rw [addVoter]
  by_cases hv : v ∈ l
  · simpa [hv]
  · simp [hv, List.mem_append, h]

/-! ### Insertion-sort lemmas -/

theorem insertLe_perm {α : Type} (le : α → α → Bool) (a : α) (l : List α) :
    List.Perm (insertLe le a l) (a :: l) := by
  induction l with
  | nil => simp [insertLe]
  | cons b l ih =>
    rw [insertLe]
    by_cases h : le a b = true
    · simp [h]
    · simp only [h, if_false]
      exact ((ih.cons b).trans (List.Perm.swap a b l))

theorem sortLe_perm {α : Type} (le : α → α → Bool) (l : List α) :
    List.Perm (sortLe le l) l := by
  induction l with
  | nil => simp [sortLe]
  | cons a l ih => exact (insertLe_perm le a (sortLe le l)).trans (ih.cons a)

theorem pairwise_insertLe {α : Type} {le : α → α → Bool}
    (htot : ∀ a b, le a b = true ∨ le b a = true)
    (htrans : ∀ a b c, le a b = true → le b c = true → le a c = true)
    (a : α) {l : List α} (h : l.Pairwise (fun x y => le x y = true)) :
    (insertLe le a l).Pairwise (fun x y => le x y = true) := by
  induction l with
  | nil => simp [insertLe]
  | cons b l ih =>
    rw [List.pairwise_cons] at h
    rw [insertLe]
    by_cases hab : le a b = true
    · rw [if_pos hab, List.pairwise_cons]
      refine ⟨fun x hx => ?_, List.pairwise_cons.2 h⟩
      rcases List.mem_cons.1 hx with hx | hx
      · exact hx ▸ hab
      · exact htrans a b x hab (h.1 x hx)
    · rw [if_neg hab, List.pairwise_cons]
      have hba : le b a = true := (htot a b).resolve_left hab
      refine ⟨fun x hx => ?_, ih h.2⟩
      rcases List.mem_cons.1 ((insertLe_perm le a l).mem_iff.1 hx) with hx1 | hx1
      · exact hx1 ▸ hba
      · exact h.1 x hx1

theorem pairwise_sortLe {α : Type} {le : α → α → Bool}
    (htot : ∀ a b, le a b = true ∨ le b a = true)
    (htrans : ∀ a b c, le a b = true → le b c = true → le a c = true)
    (l : List α) : (sortLe le l).Pairwise (fun x y => le x y = true) := by
  induction l with
  | nil => simp [sortLe]
  | cons a l ih => exact pairwise_insertLe htot htrans a ih

/-! ### Histogram arithmetic -/

theorem foldl_add_shift (l : List Int) (a : Int) :
    l.foldl (· + ·) a = a + l.foldl (· + ·) 0 := by
  induction l generalizing a with
  | nil => simp
  | cons b l ih =>
    rw [List.foldl_cons, List.foldl_cons, ih (a + b), ih (0 + b)]
    ring

theorem sumCounts_cons (p : Int × Int) (l : List (Int × Int)) :
    sumCounts (p :: l) = p.2 + sumCounts l := by
  rw [sumCounts, sumCounts, List.map_cons, List.foldl_cons, foldl_add_shift]
  ring

theorem sumCounts_bumpCount (l : List (Int × Int)) (k : Int) :
    sumCounts (bumpCount l k) = sumCounts l + 1 := by
  induction l with
  | nil => simp [bumpCount, sumCounts]
  | cons p l ih =>
    by_cases h : p.1 = k
    · rw [bumpCount, if_pos h, sumCounts_cons, sumCounts_cons]
      ring
    · rw [bumpCount, if_neg h, sumCounts_cons, sumCounts_cons, ih]
      ring

theorem sumCounts_foldl_bump (es : List (String × Int)) :
    ∀ acc, sumCounts (es.foldl (fun r e => bumpCount r e.2) acc)
      = sumCounts acc + (es.length : Int) := by
  induction es with
  | nil => intro acc; simp
  | cons e es ih =>
    intro acc
    rw [List.foldl_cons, ih (bumpCount acc e.2), sumCounts_bumpCount, List.length_cons]
    push_cast
    ring

theorem sumCounts_countByNumberOfVotes (es : List (String × Int)) :
    sumCounts (countByNumberOfVotes es) = (es.length : Int) := by
  rw [countByNumberOfVotes, sumCounts_foldl_bump]
  simp [sumCounts]

theorem sumCounts_alistSet (l : List (Int × Int)) (k v : Int) :
    sumCounts (alistSet l k v) = sumCounts l + v - (alistGet l k).getD 0 := by
  induction l with
  | nil => simp [alistSet, alistGet, sumCounts]
  | cons p l ih =>
    by_cases h : p.1 = k
    · rw [alistSet, if_pos h, alistGet, if_pos h, sumCounts_cons, sumCounts_cons]
      simp only [Option.getD_some]
      ring
    · rw [alistSet, if_neg h, alistGet, if_neg h, sumCounts_cons, sumCounts_cons, ih]
      ring

theorem alistGet_bumpCount_self (l : List (Int × Int)) (k : Int) :
    alistGet (bumpCount l k) k = some ((alistGet l k).getD 0 + 1) := by
  induction l with
  | nil => simp [bumpCount, alistGet]
  | cons p l ih =>
    by_cases h : p.1 = k
    · rw [bumpCount, if_pos h, alistGet, if_pos h, alistGet, if_pos h]
      simp
    · rw [bumpCount, if_neg h, alistGet, if_neg h, alistGet, if_neg h, ih]

theorem alistGet_bumpCount_ne (l : List (Int × Int)) {k k2 : Int} (h : k2 ≠ k) :
    alistGet (bumpCount l k) k2 = alistGet l k2 := by
  induction l with
  | nil => simp [bumpCount, alistGet, Ne.symm h]
  | cons p l ih =>
    by_cases hpk : p.1 = k
    · have hpk2 : ¬ p.1 = k2 := fun h2 => h (h2 ▸ hpk)
      rw [bumpCount, if_pos hpk, alistGet, if_neg (hpk ▸ hpk2), alistGet, if_neg hpk2]
    · by_cases hpk2 : p.1 = k2
      · rw [bumpCount, if_neg hpk, alistGet, if_pos hpk2, alistGet, if_pos hpk2]
      · rw [bumpCount, if_neg hpk, alistGet, if_neg hpk2, alistGet, if_neg hpk2, ih]

theorem alistGet_foldl_bump (es : List (String × Int)) (v : Int) :
    ∀ acc, (alistGet (es.foldl (fun r e => bumpCount r e.2) acc) v).getD 0
      = (alistGet acc v).getD 0 + ((es.filter (fun e => e.2 == v)).length : Int) := by
  induction es with
  | nil => intro acc; simp
  | cons e es ih =>
    intro acc
    rw [List.foldl_cons, ih (bumpCount acc e.2)]
    by_cases h : e.2 = v
    · rw [h, alistGet_bumpCount_self]
      have hb : (e.2 == v) = true := by simp [h]
      simp [List.filter_cons, hb]
      ring
    · rw [alistGet_bumpCount_ne acc (fun h2 => h h2.symm)]
      have hb : (e.2 == v) = false := by simp [h]
      simp [List.filter_cons, hb]

theorem alistGet_countByNumberOfVotes (es : List (String × Int)) (v : Int) :
    (alistGet (countByNumberOfVotes es) v).getD 0
      = ((es.filter (fun e => e.2 == v)).length : Int) := by
  rw [countByNumberOfVotes, alistGet_foldl_bump]
  simp [alistGet]

theorem bumpCount_pos {l : List (Int × Int)} (k : Int) (h : ∀ p ∈ l, 1 ≤ p.2) :
    ∀ p ∈ bumpCount l k, 1 ≤ p.2 := by
  induction l with
  | nil =>
    intro p hp
    rw [bumpCount] at hp
    rcases List.mem_cons.1 hp with hp1 | hp1
    · simp [hp1]
    · simp at hp1
  | cons q l ih =>
    intro p hp
    by_cases hq : q.1 = k
    · rw [bumpCount, if_pos hq] at hp
      rcases List.mem_cons.1 hp with hp1 | hp1
      · rw [hp1]
        have := h q (List.mem_cons_self q l)
        omega
      · exact h p (List.mem_cons_of_mem q hp1)
    · rw [bumpCount, if_neg hq] at hp
      rcases List.mem_cons.1 hp with hp1 | hp1
      · exact hp1 ▸ h q (List.mem_cons_self q l)
      · exact ih (fun r hr => h r (List.mem_cons_of_mem q hr)) p hp1

/-! ### The reachable-state invariant -/

/-- Well-formedness maintained by the main loop: the voter set has no
duplicates, and every proposal ledger has duplicate-free voter keys,
all of which were recorded in the voter set. -/
def StateWF (s : ScanState) : Prop :=
  s.voters.Nodup ∧
  ∀ p ∈ s.distr, (p.2.map (fun q => q.1)).Nodup ∧ ∀ q ∈ p.2, q.1 ∈ s.voters

theorem initialState_wf : StateWF initialState := by
  constructor
  · simp [initialState]
  · intro p hp
    simp [initialState] at hp

/-- The branch of `processTx` followed by an irrelevant transaction. -/
theorem processTx_irrelevant {env : Env} (s : ScanState) {t : Tx}
    (hrel : (isVote env t || isWithdraw env t) = false) :
    processTx env s t = Except.ok s := by
  simp only [processTx]
  rw [if_neg (by simp [hrel])]

/-- The branch of `processTx` for a relevant transaction with no
matching ballot-box output: the JS `TypeError` aborts the loop. -/
theorem processTx_noBoxOutput {env : Env} (s : ScanState) {t : Tx}
    (hrel : (isVote env t || isWithdraw env t) = true)
    (hbox : getBoxAddress env t (voterOf t) = none) :
    processTx env s t = Except.error noBoxOutputMsg := by
  simp only [processTx]
  rw [if_pos hrel]
  simp only [hbox]

/-- The branch of `processTx` for a relevant transaction whose box
address matches no proposal: the voter is recorded, one diagnostic
carrying the box address is appended, and `distr` is untouched. -/
theorem processTx_unresolved {env : Env} (s : ScanState) {t : Tx} {ba : String}
    (hrel : (isVote env t || isWithdraw env t) = true)
    (hbox : getBoxAddress env t (voterOf t) = some ba)
    (hres : resolveBox env ba = none) :
    processTx env s t
      = Except.ok { s with voters := addVoter s.voters (voterOf t),
                           warnings := s.warnings ++ [ba] } := by
  simp only [processTx]
  rw [if_pos hrel]
  simp only [hbox, hres]

/-- The branch of `processTx` for a relevant, resolved transaction
whose payload fails to decode: the exception aborts the loop. -/
theorem processTx_decodeFailure {env : Env} (s : ScanState) {t : Tx} {ba pid : String}
    (hrel : (isVote env t || isWithdraw env t) = true)
    (hbox : getBoxAddress env t (voterOf t) = some ba)
    (hres : resolveBox env ba = some pid)
    (hv : getVotes env t = none) :
    processTx env s t = Except.error decodeFailureMsg := by
  simp only [processTx]
  rw [if_pos hrel]
  simp only [hbox, hres, hv]

/-- The aggregation branch of `processTx`: the ledger entry of the
voter for the resolved proposal becomes `prevVote + votes` with the
conditional second negation for withdraws. -/
theorem processTx_aggregate {env : Env} (s : ScanState) {t : Tx} {ba pid : String}
    {votesRaw : Int}
    (hrel : (isVote env t || isWithdraw env t) = true)
    (hbox : getBoxAddress env t (voterOf t) = some ba)
    (hres : resolveBox env ba = some pid)
    (hv : getVotes env t = some votesRaw) :
    processTx env s t
      = Except.ok { s with
          voters := addVoter s.voters (voterOf t),
          distr := alistSet s.distr pid
            (alistSet ((alistGet s.distr pid).getD []) (voterOf t)
              (((alistGet ((alistGet s.distr pid).getD []) (voterOf t)).getD 0)
                + (if ((alistGet ((alistGet s.distr pid).getD []) (voterOf t)).getD 0 < 0
                        ∧ isWithdraw env t = true)
                   then -votesRaw else votesRaw))) } := by
  simp only [processTx]
  rw [if_pos hrel]
  simp only [hbox, hres, hv]

theorem processTx_wf {env : Env} {s s2 : ScanState} {t : Tx}
    (hwf : StateWF s) (h : processTx env s t = Except.ok s2) : StateWF s2 := by
  by_cases hrel : (isVote env t || isWithdraw env t) = true
  · rcases hbox : getBoxAddress env t (voterOf t) with _ | ba
    · rw [processTx_noBoxOutput s hrel hbox] at h
      exact absurd h (by simp)
    · rcases hres : resolveBox env ba with _ | pid
      · rw [processTx_unresolved s hrel hbox hres] at h
        have hs2 : s2 = { s with voters := addVoter s.voters (voterOf t),
                                 warnings := s.warnings ++ [ba] } :=
          (Except.ok.inj h).symm
        subst hs2
        refine ⟨addVoter_nodup (voterOf t) hwf.1, fun p hp => ?_⟩
        exact ⟨(hwf.2 p hp).1,
          fun q hq => mem_addVoter_of_mem (voterOf t) ((hwf.2 p hp).2 q hq)⟩
      · rcases hv : getVotes env t with _ | votesRaw
        · rw [processTx_decodeFailure s hrel hbox hres hv] at h
          exact absurd h (by simp)
        · rw [processTx_aggregate s hrel hbox hres hv] at h
          have hs2 := (Except.ok.inj h).symm
          subst hs2
          constructor
          · exact addVoter_nodup (voterOf t) hwf.1
          · intro p hp
            rcases mem_alistSet hp with hp1 | hp1
            · subst hp1
              constructor
              · apply keys_alistSet_nodup
                rcases hget : alistGet s.distr pid with _ | pv
                · simp
                · simpa [hget] using (hwf.2 (pid, pv) (alistGet_mem hget)).1
              · intro q hq
                rcases mem_alistSet hq with hq1 | hq1
                · subst hq1
                  exact mem_addVoter_self s.voters (voterOf t)
                · rcases hget : alistGet s.distr pid with _ | pv
                  · rw [hget] at hq1
                    simp at hq1
                  · rw [hget] at hq1
                    exact mem_addVoter_of_mem (voterOf t)
                      ((hwf.2 (pid, pv) (alistGet_mem hget)).2 q hq1)
            · exact ⟨(hwf.2 p hp1).1,
                fun q hq => mem_addVoter_of_mem (voterOf t) ((hwf.2 p hp1).2 q hq)⟩
  · rw [processTx_irrelevant s (Bool.eq_false_iff.2 hrel)] at h
    exact (Except.ok.inj h) ▸ hwf

theorem runTxs_wf {env : Env} : ∀ (txs : List Tx) (s s2 : ScanState),
    StateWF s → runTxs env txs s = Except.ok s2 → StateWF s2 := by
  intro txs
  induction txs with
  | nil =>
    intro s s2 hwf h
    rw [runTxs] at h
    exact (Except.ok.inj h) ▸ hwf
  | cons t ts ih =>
    intro s s2 hwf h
    rw [runTxs] at h
    rcases hp : processTx env s t with s1 | s1
    · rw [hp] at h
      simp at h
    · rw [hp] at h
      exact ih s1 s2 (processTx_wf hwf hp) h

theorem countByNumberOfVotes_pos (es : List (String × Int)) :
    ∀ p ∈ countByNumberOfVotes es, 1 ≤ p.2 := by
  rw [countByNumberOfVotes]
  have key : ∀ (es : List (String × Int)) (acc : List (Int × Int)),
      (∀ p ∈ acc, 1 ≤ p.2) →
      ∀ p ∈ es.foldl (fun r e => bumpCount r e.2) acc, 1 ≤ p.2 := by
    intro es
    induction es with
    | nil => intro acc hacc; simpa using hacc
    | cons e es ih =>
      intro acc hacc
      rw [List.foldl_cons]
      exact ih (bumpCount acc e.2) (bumpCount_pos e.2 hacc)
  exact key es [] (by simp)

/-- Net ledger value of a voter for a proposal, `distr[pid][voter] || 0`. -/
def ledgerLookup (s : ScanState) (pid voter : String) : Int :=
  (alistGet ((alistGet s.distr pid).getD []) voter).getD 0

/-- Every entry of `groupedDistr` is the histogram of the proposal's
ledger with the zero bucket topped up, exactly as built by the code. -/
theorem mem_groupedDistr {s : ScanState} {pb : String × List (Int × Int)}
    (h : pb ∈ groupedDistr s) :
    pb.2 = alistSet (countByNumberOfVotes ((alistGet s.distr pb.1).getD [])) 0
      (((alistGet (countByNumberOfVotes ((alistGet s.distr pb.1).getD [])) 0).getD 0)
        + (s.voters.length : Int)
        - sumCounts (countByNumberOfVotes ((alistGet s.distr pb.1).getD []))) := by
  rw [groupedDistr] at h
  rcases List.mem_map.1 h with ⟨pid, hpid, heq⟩
  rw [← heq]

/-! ### The claims -/

/-- C1: for a relevant transaction that resolves to proposal `pid` and
decodes with scaled magnitude `ps.param3`, the aggregation loop updates
the voter's net total to `prev + m` for votes, and for withdraws to
`prev - m` when `prev ≥ 0` and `prev + m` when `prev < 0` (the
sign-inversion rule), with `m` the decoded magnitude. -/
theorem withdraw_sign_inversion (env : Env) (s : ScanState) (t : Tx) (ba pid : String)
    (ps : CastBallotParams)
    (hrel : (isVote env t || isWithdraw env t) = true)
    (hbox : getBoxAddress env t (voterOf t) = some ba)
    (hres : resolveBox env ba = some pid)
    (hdec : env.decode (payload t) = some ps) :
    ∃ s2, processTx env s t = Except.ok s2 ∧
      ledgerLookup s2 pid (voterOf t)
        = (if isWithdraw env t = true then
             (if 0 ≤ ledgerLookup s pid (voterOf t)
              then ledgerLookup s pid (voterOf t) - ((ps.param3 / factor18 : Nat) : Int)
              else ledgerLookup s pid (voterOf t) + ((ps.param3 / factor18 : Nat) : Int))
           else ledgerLookup s pid (voterOf t) + ((ps.param3 / factor18 : Nat) : Int)) := by
  have hv : getVotes env t = some (if isWithdraw env t
      then -((ps.param3 / factor18 : Nat) : Int) else ((ps.param3 / factor18 : Nat) : Int)) := by
    rw [getVotes, hdec]
  refine ⟨_, processTx_aggregate s hrel hbox hres hv, ?_⟩
  simp only [ledgerLookup, alistGet_alistSet_self, Option.getD_some]
  by_cases hw : isWithdraw env t = true
  · simp only [hw, and_true, if_true]
    by_cases hprev : (alistGet ((alistGet s.distr pid).getD []) (voterOf t)).getD 0 < 0
    · rw [if_pos hprev, if_neg (by omega)]
      ring
    · rw [if_neg hprev, if_pos (by omega)]
      ring
  · have hw2 : isWithdraw env t = false := Bool.eq_false_iff.2 hw
    simp only [hw2, Bool.false_eq_true, and_false, if_false]

/-- A state in which alice's net position on `prop1` is `-3`. -/
def negState : ScanState :=
  { distr := [("prop1", [("alice", -3)])], voters := ["alice"], warnings := [] }

/-- C1 witness: from a net position of `-3`, a withdraw of magnitude 3
brings the ledger value to `0`, not `-6`. -/
theorem withdraw_sign_inversion_witness :
    ∃ s2, processTx demoEnv negState (withdrawTx aliceAddr 3) = Except.ok s2 ∧
      ledgerLookup s2 prop1Id aliceAddr = 0 := by
  obtain ⟨s2, h1, h2⟩ := withdraw_sign_inversion demoEnv negState (withdrawTx aliceAddr 3)
    noBox1Addr prop1Id ⟨0, 0, 0, 3 * factor18⟩ (by decide) (by decide) (by decide) (by decide)
  refine ⟨s2, h1, ?_⟩
  rw [show voterOf (withdrawTx aliceAddr 3) = aliceAddr from rfl] at h2
  rw [h2]
  decide

/-- C3: a relevant transaction whose resolved box address matches no
proposal leaves every ledger entry untouched, still adds its voter to
the voter set, appends exactly one diagnostic carrying the unresolved
box address, and the loop goes on with the remaining transactions. -/
theorem unknown_proposal_skip (env : Env) (s : ScanState) (t : Tx) (ba : String)
    (ts : List Tx)
    (hrel : (isVote env t || isWithdraw env t) = true)
    (hbox : getBoxAddress env t (voterOf t) = some ba)
    (hunres : resolveBox env ba = none) :
    processTx env s t
      = Except.ok { s with voters := addVoter s.voters (voterOf t),
                           warnings := s.warnings ++ [ba] }
    ∧ ({ s with voters := addVoter s.voters (voterOf t),
                warnings := s.warnings ++ [ba] } : ScanState).distr = s.distr
    ∧ voterOf t ∈ addVoter s.voters (voterOf t)
    ∧ runTxs env (t :: ts) s
        = runTxs env ts { s with voters := addVoter s.voters (voterOf t),
                                 warnings := s.warnings ++ [ba] } := by
  have h1 := processTx_unresolved s hrel hbox hunres
  refine ⟨h1, rfl, mem_addVoter_self s.voters (voterOf t), ?_⟩
  rw [runTxs, h1]

/-- C3 witness: the demo withdraw whose script hashes to an unknown box
address is skipped with one diagnostic while carol joins the voter
set. -/
theorem unknown_proposal_skip_witness :
    processTx demoEnv initialState unknownBoxTx
      = Except.ok { initialState with
          voters := addVoter initialState.voters (voterOf unknownBoxTx),
          warnings := initialState.warnings ++ [unknownBoxAddr] }
    ∧ ({ initialState with
          voters := addVoter initialState.voters (voterOf unknownBoxTx),
          warnings := initialState.warnings ++ [unknownBoxAddr] } : ScanState).distr
        = initialState.distr
    ∧ voterOf unknownBoxTx ∈ addVoter initialState.voters (voterOf unknownBoxTx)
    ∧ runTxs demoEnv (unknownBoxTx :: []) initialState
        = runTxs demoEnv [] { initialState with
            voters := addVoter initialState.voters (voterOf unknownBoxTx),
            warnings := initialState.warnings ++ [unknownBoxAddr] } :=
  unknown_proposal_skip demoEnv initialState unknownBoxTx unknownBoxAddr []
    (by decide) (by decide) (by decide)

/-- C4 counterexample: with a transaction whose payload cannot be
decoded followed by a perfectly good vote, the whole run aborts with
the decode exception — the remaining transaction is never aggregated,
refuting that a decode failure never aborts the run. -/
theorem decode_failure_aborts_run_cex :
    runTxs demoEnv [badDecodeTx, voteTx aliceAddr 5] initialState
      = Except.error decodeFailureMsg := rfl

/-- C4 amended: a relevant, resolved transaction whose payload fails to
decode raises an exception that aborts the entire run; no subsequent
transaction is aggregated. -/
theorem decode_failure_aborts_run (env : Env) (s : ScanState) (t : Tx) (ba pid : String)
    (ts : List Tx)
    (hrel : (isVote env t || isWithdraw env t) = true)
    (hbox : getBoxAddress env t (voterOf t) = some ba)
    (hres : resolveBox env ba = some pid)
    (hdec : env.decode (payload t) = none) :
    runTxs env (t :: ts) s = Except.error decodeFailureMsg := by
  have hv : getVotes env t = none := by rw [getVotes, hdec]
  rw [runTxs, processTx_decodeFailure s hrel hbox hres hv]

/-- C4 witness: the amended behavior on the concrete bad transaction. -/
theorem decode_failure_aborts_run_witness :
    runTxs demoEnv (badDecodeTx :: [voteTx aliceAddr 5]) initialState
      = Except.error decodeFailureMsg :=
  decode_failure_aborts_run demoEnv initialState badDecodeTx yesBox1Addr prop1Id
    [voteTx aliceAddr 5] (by decide) (by decide) (by decide) (by decide)

/-- C5 counterexample: for a concrete withdraw of magnitude 3, the
decoder `getVotes` emits `-3`, which is not positive — refuting that
the decoder always emits the magnitude as a positive value for
withdraws. -/
theorem withdraw_decoder_sign_cex :
    getVotes demoEnv (withdrawTx aliceAddr 3) = some (-3)
    ∧ ¬ (0 < (-3 : Int)) := ⟨rfl, by decide⟩

/-- C5 amended: the magnitude is decoded from the payload minus the
4-byte selector by the `castBallot`-layout decoder (the same decoder
for Vote and Withdraw), as the 4th parameter divided by `10 ^ 18`; for
Withdraw transactions `getVotes` emits this magnitude negated — a
non-positive value, not a positive one. -/
theorem getVotes_layout_and_sign (env : Env) (t : Tx) (ps : CastBallotParams)
    (hdec : env.decode (payload t) = some ps) :
    getVotes env t
      = some (if isWithdraw env t
              then -((ps.param3 / factor18 : Nat) : Int)
              else ((ps.param3 / factor18 : Nat) : Int))
    ∧ (isWithdraw env t = true →
        getVotes env t = some (-((ps.param3 / factor18 : Nat) : Int))
        ∧ -((ps.param3 / factor18 : Nat) : Int) ≤ 0) := by
  have h1 : getVotes env t
      = some (if isWithdraw env t
              then -((ps.param3 / factor18 : Nat) : Int)
              else ((ps.param3 / factor18 : Nat) : Int)) := by
    rw [getVotes, hdec]
  refine ⟨h1, fun hw => ⟨?_, ?_⟩⟩
  · rw [h1, hw]
    simp
  · exact neg_nonpos.2 (Int.natCast_nonneg _)

/-- C5 witness: the amended statement at the concrete withdraw. -/
theorem getVotes_layout_and_sign_witness :
    getVotes demoEnv (withdrawTx aliceAddr 3)
      = some (if isWithdraw demoEnv (withdrawTx aliceAddr 3)
              then -((((⟨0, 0, 0, 3 * factor18⟩ : CastBallotParams).param3 / factor18 : Nat) : Int))
              else ((((⟨0, 0, 0, 3 * factor18⟩ : CastBallotParams).param3 / factor18 : Nat) : Int)))
    ∧ (isWithdraw demoEnv (withdrawTx aliceAddr 3) = true →
        getVotes demoEnv (withdrawTx aliceAddr 3)
          = some (-((((⟨0, 0, 0, 3 * factor18⟩ : CastBallotParams).param3 / factor18 : Nat) : Int)))
        ∧ -((((⟨0, 0, 0, 3 * factor18⟩ : CastBallotParams).param3 / factor18 : Nat) : Int)) ≤ 0) :=
  getVotes_layout_and_sign demoEnv (withdrawTx aliceAddr 3) ⟨0, 0, 0, 3 * factor18⟩ (by decide)

/-- C6: the voter is the signer of input index 1; for a withdraw, the
box address is the hex RIPEMD-160 digest of the first input's
unlocking script; otherwise it is the address of the first output
whose color is the ballot-box color 4 and whose address differs from
the voter. -/
theorem box_address_resolution (env : Env) (t : Tx) :
    voterOf t = (t.inputs.getD 1 defaultTxInput).signer
    ∧ (isWithdraw env t = true →
        getBoxAddress env t (voterOf t)
          = some (env.ripemd160hex (t.inputs.getD 0 defaultTxInput).script))
    ∧ (isWithdraw env t = false →
        ∀ o : TxOutput,
          t.outputs.find? (fun u => u.address != voterOf t && u.color == 4) = some o →
          getBoxAddress env t (voterOf t) = some o.address
          ∧ o.color = 4 ∧ o.address ≠ voterOf t) := by
  refine ⟨rfl, fun hw => ?_, fun hw o hfind => ?_⟩
  · rw [getBoxAddress, if_pos hw]
  · have hp := List.find?_some hfind
    simp only [Bool.and_eq_true, bne_iff_ne, beq_iff_eq] at hp
    refine ⟨?_, hp.2, hp.1⟩
    rw [getBoxAddress, if_neg (by simp [hw]), hfind]
    rfl

/-- C6 witness: box resolution on the two concrete demo transactions
(one withdraw resolved by digest, one vote resolved by output). -/
theorem box_address_resolution_witness :
    getBoxAddress demoEnv (withdrawTx aliceAddr 3) (voterOf (withdrawTx aliceAddr 3))
      = some noBox1Addr
    ∧ getBoxAddress demoEnv (voteTx aliceAddr 5) (voterOf (voteTx aliceAddr 5))
      = some yesBox1Addr := by
  constructor
  · exact (box_address_resolution demoEnv (withdrawTx aliceAddr 3)).2.1 (by decide)
  · exact ((box_address_resolution demoEnv (voteTx aliceAddr 5)).2.2 (by decide)
      ⟨yesBox1Addr, 4⟩ (by decide)).1

/-- C9: the two-withdrawal sequence and its permutation produce
different final ledgers: aggregation is not invariant under reordering
because the sign-inversion condition reads the accumulated sign. -/
theorem aggregation_order_dependent :
    List.Perm [withdrawTx aliceAddr 2, withdrawTx aliceAddr 3]
      [withdrawTx aliceAddr 3, withdrawTx aliceAddr 2]
    ∧ ∃ s1 s2 : ScanState,
        runTxs demoEnv [withdrawTx aliceAddr 2, withdrawTx aliceAddr 3] initialState
          = Except.ok s1
        ∧ runTxs demoEnv [withdrawTx aliceAddr 3, withdrawTx aliceAddr 2] initialState
          = Except.ok s2
        ∧ ledgerLookup s1 prop1Id aliceAddr = 1
        ∧ ledgerLookup s2 prop1Id aliceAddr = -1
        ∧ s1.distr ≠ s2.distr := by
  refine ⟨List.Perm.swap _ _ _, ⟨_, _, rfl, rfl, by decide, by decide, by decide⟩⟩

/-- In a well-formed state, the number of ledger entries of a proposal
never exceeds the size of the voter set (each key was added to the
voter set before its entry was created). -/
theorem participants_le_voters {s : ScanState} (hwf : StateWF s) (pid : String) :
    ((alistGet s.distr pid).getD []).length ≤ s.voters.length := by
  rcases hget : alistGet s.distr pid with _ | pv
  · simp
  · simp only [Option.getD_some]
    have hkeys := (hwf.2 (pid, pv) (alistGet_mem hget)).1
    have hsub : (pv.map (fun q => q.1)) ⊆ s.voters := by
      intro x hx
      rcases List.mem_map.1 hx with ⟨q, hq, hqx⟩
      exact hqx ▸ (hwf.2 (pid, pv) (alistGet_mem hget)).2 q hq
    have hlen := (List.subperm_of_subset hkeys hsub).length_le
    simpa using hlen

/-- C2: in any completed run, every proposal of the final distribution
has bucket counts summing exactly to the number of distinct voters
observed across all proposals. -/
theorem bucket_counts_sum_to_voter_count (env : Env) (txs : List Tx) (s : ScanState)
    (pb : String × List (Int × Int))
    (hrun : runTxs env txs initialState = Except.ok s)
    (hpb : pb ∈ groupedDistr s) :
    sumCounts pb.2 = (s.voters.length : Int) ∧ s.voters.Nodup := by
  constructor
  · rw [mem_groupedDistr hpb, sumCounts_alistSet]
    ring
  · exact (runTxs_wf txs initialState s initialState_wf hrun).1

/-- C2 witness: the closure property on the concrete single-vote run. -/
theorem bucket_counts_sum_to_voter_count_witness :
    sumCounts ((prop1Id, [((5 : Int), (1 : Int)), (0, 0)]) : String × List (Int × Int)).2
      = (demoRunState.voters.length : Int) ∧ demoRunState.voters.Nodup :=
  bucket_counts_sum_to_voter_count demoEnv [voteTx aliceAddr 5] demoRunState
    (prop1Id, [((5 : Int), (1 : Int)), (0, 0)]) rfl (by decide)

/-- C7: in any completed run, the zero bucket of every summarized
proposal holds the number of participants whose net vote is exactly 0
plus the difference between the voter-set size and the number of
voters holding a ledger entry for that proposal; the bucket is present
even when no participant has net 0. -/
theorem zero_bucket_formula (env : Env) (txs : List Tx) (s : ScanState)
    (pid : String) (b : List (Int × Int))
    (hrun : runTxs env txs initialState = Except.ok s)
    (hpb : (pid, b) ∈ groupedDistr s) :
    alistGet b 0
      = some (((((alistGet s.distr pid).getD []).filter (fun q => q.2 == 0)).length : Int)
        + (s.voters.length : Int)
        - ((((alistGet s.distr pid).getD []).length : Int)))
    ∧ ((((alistGet s.distr pid).getD []).map (fun q => q.1)).Nodup) := by
  have hb : b = alistSet (countByNumberOfVotes ((alistGet s.distr pid).getD [])) 0
      (((alistGet (countByNumberOfVotes ((alistGet s.distr pid).getD [])) 0).getD 0)
        + (s.voters.length : Int)
        - sumCounts (countByNumberOfVotes ((alistGet s.distr pid).getD []))) :=
    mem_groupedDistr hpb
  constructor
  · rw [hb, alistGet_alistSet_self]
    congr 1
    rw [alistGet_countByNumberOfVotes, sumCounts_countByNumberOfVotes]
  · rcases hget : alistGet s.distr pid with _ | pv
    · simp
    · have hwf := runTxs_wf txs initialState s initialState_wf hrun
      simpa [hget] using (hwf.2 (pid, pv) (alistGet_mem hget)).1

/-- C7 witness: the zero-bucket formula on the concrete run (alice net
5 on prop1, zero bucket 0 + 1 - 1 = 0). -/
theorem zero_bucket_formula_witness :
    alistGet [((5 : Int), (1 : Int)), (0, 0)] 0
      = some (((((alistGet demoRunState.distr prop1Id).getD []).filter
            (fun q => q.2 == 0)).length : Int)
        + (demoRunState.voters.length : Int)
        - ((((alistGet demoRunState.distr prop1Id).getD []).length : Int)))
    ∧ ((((alistGet demoRunState.distr prop1Id).getD []).map (fun q => q.1)).Nodup) :=
  zero_bucket_formula demoEnv [voteTx aliceAddr 5] demoRunState prop1Id
    [((5 : Int), (1 : Int)), (0, 0)] rfl (by decide)

/-- C10: in any completed run, every count of every emitted
distribution bucket is non-negative: grouped counts are at least 1 and
the zero-bucket adjustment `voters.size - totalParticipants` cannot be
negative because each ledger key was recorded in the voter set. -/
theorem bucket_counts_nonneg (env : Env) (txs : List Tx) (s : ScanState)
    (pb : String × List (Int × Int)) (vc : Int × Int)
    (hrun : runTxs env txs initialState = Except.ok s)
    (hpb : pb ∈ groupedDistr s) (hvc : vc ∈ pb.2) : 0 ≤ vc.2 := by
  have hwf := runTxs_wf txs initialState s initialState_wf hrun
  have hb := mem_groupedDistr hpb
  rw [hb] at hvc
  rcases mem_alistSet hvc with h1 | h1
  · have h0 : 0 ≤ (alistGet (countByNumberOfVotes ((alistGet s.distr pb.1).getD [])) 0).getD 0 := by
      rcases hz : alistGet (countByNumberOfVotes ((alistGet s.distr pb.1).getD [])) 0 with _ | c
      · simp
      · have := countByNumberOfVotes_pos ((alistGet s.distr pb.1).getD []) (0, c)
          (alistGet_mem hz)
        simpa using le_trans (by decide) this
    have htot : sumCounts (countByNumberOfVotes ((alistGet s.distr pb.1).getD []))
        = ((((alistGet s.distr pb.1).getD []).length : Nat) : Int) :=
      sumCounts_countByNumberOfVotes ((alistGet s.distr pb.1).getD [])
    have hple : ((alistGet s.distr pb.1).getD []).length ≤ s.voters.length :=
      participants_le_voters hwf pb.1
    rw [h1]
    simp only []
    rw [htot]
    have hcast : ((((alistGet s.distr pb.1).getD []).length : Nat) : Int)
        ≤ (s.voters.length : Int) := Int.ofNat_le.2 hple
    omega
  · exact le_trans (by decide)
      (countByNumberOfVotes_pos ((alistGet s.distr pb.1).getD []) vc h1)

/-- C10 witness: non-negativity of a concrete bucket count. -/
theorem bucket_counts_nonneg_witness :
    (0 : Int) ≤ (((5 : Int), (1 : Int)) : Int × Int).2 :=
  bucket_counts_nonneg demoEnv [voteTx aliceAddr 5] demoRunState
    (prop1Id, [((5 : Int), (1 : Int)), (0, 0)]) ((5 : Int), (1 : Int))
    rfl (by decide) (by decide)

/-- The proposal ids of `groupedDistr` are the sorted keys of `distr`. -/
theorem groupedDistr_keys (s : ScanState) :
    (groupedDistr s).map (fun v => v.1) = sortLe strLe (s.distr.map (fun p => p.1)) := by
  rw [groupedDistr, List.map_map]
  exact List.map_id _

theorem strLe_total : ∀ a b : String, strLe a b = true ∨ strLe b a = true := by
  intro a b
  rcases le_total a b with h | h
  · exact Or.inl (decide_eq_true h)
  · exact Or.inr (decide_eq_true h)

theorem strLe_trans : ∀ a b c : String,
    strLe a b = true → strLe b c = true → strLe a c = true := by
  intro a b c hab hbc
  exact decide_eq_true (le_trans (of_decide_eq_true hab) (of_decide_eq_true hbc))

theorem pairLe_total : ∀ a b : Int × Int, pairLe a b = true ∨ pairLe b a = true := by
  intro a b
  rcases le_total a.1 b.1 with h | h
  · exact Or.inl (decide_eq_true h)
  · exact Or.inr (decide_eq_true h)

theorem pairLe_trans : ∀ a b c : Int × Int,
    pairLe a b = true → pairLe b c = true → pairLe a c = true := by
  intro a b c hab hbc
  exact decide_eq_true (le_trans (of_decide_eq_true hab) (of_decide_eq_true hbc))

/-- C8: the CSV is the header `Proposal,Votes,Count` followed by one
row per `(proposalId, voteValue, count)` triple grouped by proposal;
proposals are emitted in lexicographic id order, and within a proposal
the rows are exactly its buckets sorted ascending by vote value. -/
theorem csv_ordering (s : ScanState) (pb : String × List (Int × Int))
    (_hpb : pb ∈ groupedDistr s) :
    distributionByVoteCSV s
      = "Proposal,Votes,Count"
          :: (groupedDistr s).flatMap (fun v => (sortLe pairLe v.2).map (csvRow v.1))
    ∧ ((groupedDistr s).map (fun v => v.1)).Pairwise (fun a b => a ≤ b)
    ∧ (sortLe pairLe pb.2).Pairwise (fun a b => a.1 ≤ b.1)
    ∧ List.Perm (sortLe pairLe pb.2) pb.2 := by
  refine ⟨rfl, ?_, ?_, sortLe_perm pairLe pb.2⟩
  · rw [groupedDistr_keys]
    exact (pairwise_sortLe strLe_total strLe_trans (s.distr.map (fun p => p.1))).imp
      (fun h => of_decide_eq_true h)
  · exact (pairwise_sortLe pairLe_total pairLe_trans pb.2).imp
      (fun h => of_decide_eq_true h)

/-- C8 witness: membership and row sortedness on the concrete run. -/
theorem csv_ordering_witness :
    ((prop1Id, [((5 : Int), (1 : Int)), (0, 0)]) ∈ groupedDistr demoRunState)
    ∧ (sortLe pairLe [((5 : Int), (1 : Int)), (0, 0)]).Pairwise (fun a b => a.1 ≤ b.1) :=
  ⟨by decide,
    ((csv_ordering demoRunState (prop1Id, [((5 : Int), (1 : Int)), (0, 0)])
      (by decide)).2.2).1⟩
